import Mathlib

/-! game-of-life build helpers: change detection, build reporting, error-file watching.

A shallow embedding of the three Go programs of the repository
(`watch_and_build.go`, `autoapprove.go`, `watch_build_errors.go`).

* Go `map[string]V` is an association list with pairwise distinct keys
  (`AList`); `len`, `m[k]` (zero value for a missing key) and `m[k] = v` are
  `GoMap.len`, `GoMap.index` and `GoMap.assign`.
* `int64` timestamps are integers; they are only stored and compared, never
  computed with, so no wrap-around arises.
* Standard output and external commands are recorded as a trace of `Event`s.
* The filesystem, the directory walk and the external commands are inputs of
  the functions that use them.
-/

namespace GameOfLife

/-! ## Go maps -/

/-- Go `map[string]V`: finitely many entries with pairwise distinct keys. -/
abbrev GoMap (V : Type) := AList (fun _ : String => V)

/-- Go `len(m)`: the number of keys. -/
def GoMap.len {V : Type} (m : GoMap V) : Nat := m.entries.length

/-- Go `m[k]`: the stored value, or the zero value of `V` when `k` is missing. -/
def GoMap.index {V : Type} (zero : V) (m : GoMap V) (k : String) : V :=
  (m.lookup k).getD zero

/-- Go `m[k] = v`. -/
def GoMap.assign {V : Type} (m : GoMap V) (k : String) (v : V) : GoMap V :=
  m.insert k v

/-- Two maps are equal as mappings: every key is bound alike (or unbound alike) in both. -/
def GoMap.SameMapping {V : Type} (a b : GoMap V) : Prop :=
  ∀ k : String, a.lookup k = b.lookup k

/-- Snapshot: file path to modification time (`map[string]int64`). -/
abbrev Snapshot := GoMap Int

/-! ## watch_and_build.go: mtimesChanged -/

/-- The loop `for k, v := range a { if b[k] != v { return true } }` of
`mtimesChanged`, over the entries of `a` in the order the range visits them;
`false` when the loop runs to its end. -/
def rangeMismatch (b : Snapshot) : List (Σ _ : String, Int) → Bool
  | [] => false
  | ⟨k, v⟩ :: rest => if b.index 0 k ≠ v then true else rangeMismatch b rest

/-- Go `mtimesChanged(a, b)`. -/
def mtimesChanged (a b : Snapshot) : Bool :=
  if a.len ≠ b.len then true else rangeMismatch b a.entries

/-- Snapshot literal from a list of `(path, mtime)` pairs, assigned left to right. -/
def snapshotOf (l : List (String × Int)) : Snapshot :=
  l.foldl (fun m kv => m.assign kv.1 kv.2) ∅

/-! ## Output and external commands -/

/-- An observable action of a program: a line group written by `fmt.Println`, or an
external command run to completion by `exec.Command(argv...).Run()`. -/
inductive Event
  | println (args : List String)
  | run (argv : List String)
  deriving DecidableEq

/-- The commands a trace ran, in order. -/
def commandsRun : List Event → List (List String)
  | [] => []
  | Event.run argv :: rest => argv :: commandsRun rest
  | Event.println _ :: rest => commandsRun rest

/-- What `cmd.Run()` observes: the command could not be started, or it ran, wrote
`output` to its standard output and standard error, and exited with `code`. -/
inductive RunResult
  | launchFailed
  | exited (code : Nat) (output : String)
  deriving DecidableEq

/-- Go `err == nil` for the error returned by `cmd.Run()`: the command ran and exited 0. -/
def RunResult.errIsNil : RunResult → Bool
  | RunResult.exited 0 _ => true
  | _ => false

/-- The bytes a command wrote to the file its output was redirected to. -/
def RunResult.output : RunResult → String
  | RunResult.launchFailed => ""
  | RunResult.exited _ out => out

/-- The outcome of every external command, by argument vector. -/
abbrev Commands := List String → RunResult

/-! ## watch_and_build.go: constants -/

def repoPath : String := "C:\\Users\\bryan\\repos\\game-of-life"
def srcPath : String := "C:\\Users\\bryan\\repos\\game-of-life\\src"
def goScript : String := "C:\\Users\\bryan\\repos\\game-of-life\\autoapprove.go"
def errFile : String := "C:\\Users\\bryan\\repos\\game-of-life\\build-error.txt"

/-! ## watch_and_build.go: getMtimes -/

/-- One call of the `filepath.Walk` callback: the visited path, whether the walk
reported an error for it (`err != nil`), `info.IsDir()` and
`info.ModTime().UnixNano()`. The last two are read only when there is no error. -/
structure WalkEntry where
  path : String
  err : Bool
  isDir : Bool
  modTimeUnixNano : Int

/-- Go `strings.HasSuffix(s, suffix)`. -/
def HasSuffix (s suffix : String) : Bool := suffix.data.isSuffixOf s.data

/-- The extension test of the walk callback. -/
def recognized (path : String) : Bool :=
  HasSuffix path ".js" || HasSuffix path ".jsx" || HasSuffix path ".ts" || HasSuffix path ".tsx"

/-- An entry the walk callback records: no error, not a directory, recognized extension. -/
def WalkEntry.collected (e : WalkEntry) : Bool :=
  e.err = false && !e.isDir && recognized e.path

/-- The walk callback of `getMtimes`, as a function of the map it updates. It
always returns `nil`, so the walk goes on to the next entry. -/
def walkFn (mtimes : Snapshot) (e : WalkEntry) : Snapshot :=
  if e.err = false && !e.isDir && recognized e.path then
    mtimes.assign e.path e.modTimeUnixNano
  else mtimes

/-- Go `getMtimes(root)`, given the entries `filepath.Walk(root, ...)` visits, in order. -/
def getMtimes (visited : List WalkEntry) : Snapshot :=
  visited.foldl walkFn ∅

/-! ## watch_and_build.go: showBuildError -/

/-- Go `strings.Split(s, "\n")` on the characters of `s`: the segments between
newlines, one more than there are newlines. -/
def splitNewline : List Char → List (List Char)
  | [] => [[]]
  | c :: cs =>
    if c = '\n' then [] :: splitNewline cs
    else
      match splitNewline cs with
      | [] => [[c]]
      | seg :: segs => (c :: seg) :: segs

/-- Go `strings.Split(s, "\n")`. -/
def Split (s : String) : List String := (splitNewline s.data).map String.mk

/-- Go `showBuildError()`, given the result of `ioutil.ReadFile(errFile)`
(`none` when the read fails). -/
def showBuildError (readErrFile : Option String) : List Event :=
  Event.println ["\n=== Build failed! ==="] ::
    match readErrFile with
    | some data =>
      let lines := Split data
      let start := if lines.length > 30 then lines.length - 30 else 0
      (lines.drop start).map (fun line => Event.println [line]) ++
        [Event.println ["\nCopy the error log above and paste it to Copilot for fixes."]]
    | none => [Event.println ["Could not read build-error.txt."]]

/-- A capture file made of the given lines, each terminated by a newline. -/
def fileOfLines (lines : List String) : String :=
  String.mk (lines.flatMap (fun l => l.data ++ ['\n']))

/-! ## autoapprove.go -/

def buildCommand : List String := ["npm", "run", "build"]
def gitAdd : List String := ["git", "add", "."]
def gitCommit : List String :=
  ["git", "commit", "-m", "Auto-approve: build succeeded and changes applied"]
def gitPush : List String := ["git", "push"]

/-- Go `main` of `autoapprove.go`, for runs in which `os.Create("build-error.txt")`
succeeds: the trace, and the content of `build-error.txt` when the program ends.
The results of the three git commands are evaluated and dropped, as in the source. -/
def autoapprove (sys : Commands) : List Event × String :=
  let res := sys buildCommand
  let buildFile := "" ++ res.output
  if res.errIsNil then
    let _ := sys gitAdd
    let _ := sys gitCommit
    let _ := sys gitPush
    ([Event.run buildCommand, Event.run gitAdd, Event.run gitCommit, Event.run gitPush,
      Event.println ["Build succeeded and changes committed."]], buildFile)
  else
    ([Event.run buildCommand,
      Event.println ["Build failed. See build-error.txt for details."]], buildFile)

/-! ## watch_and_build.go: the watch loop -/

/-- What one pass of the watch loop reads from its environment: the snapshot
`getMtimes(srcPath)` returns, what the script started by `go run` does (`none`
when it could not be started), and whether `build-error.txt` can be read. -/
structure Tick where
  mtimes : Snapshot
  script : Option Commands
  readOk : Bool

/-- State carried from one pass of the watch loop to the next: the baseline
snapshot and the content of `build-error.txt` (`none` while it does not exist). -/
structure WatchState where
  lastMtimes : Snapshot
  errFileData : Option String

/-- The body of the `for` loop of `main` in `watch_and_build.go` (after the sleep). -/
def loopBody (st : WatchState) (t : Tick) : List Event × WatchState :=
  if mtimesChanged t.mtimes st.lastMtimes then
    let child : List Event × Option String :=
      match t.script with
      | some sys => ((autoapprove sys).1, some (autoapprove sys).2)
      | none => ([], st.errFileData)
    let report : List Event :=
      match child.2 with
      | some data =>
        if data.length > 0 then showBuildError (if t.readOk then some data else none)
        else [Event.println ["Build succeeded."]]
      | none => [Event.println ["Build succeeded."]]
    (Event.println ["Change detected. Running build..."] :: Event.run ["go", "run", goScript] ::
      (child.1 ++ report), ⟨t.mtimes, child.2⟩)
  else ([], st)

/-- The number of times a trace started the build script. -/
def buildsStarted (tr : List Event) : Nat := tr.count (Event.run ["go", "run", goScript])

/-- Whether a trace contains the header `showBuildError` prints first. -/
def reported (tr : List Event) : Bool := decide (Event.println ["\n=== Build failed! ==="] ∈ tr)

/-! ## watch_build_errors.go -/

/-- One poll of the error-file watcher: the names `filepath.Glob` lists, in order,
and the content `ioutil.ReadFile` yields for a name (empty when the read fails). -/
structure Poll where
  files : List String
  readFile : String → String

/-- The announcement printed for a newly seen file. -/
def detected (f : String) : Event := Event.println ["New build error file detected:", f]

/-- The loop `for _, f := range files` of the watcher: the updated seen set and the output. -/
def scanFiles (readFile : String → String) : GoMap Bool → List String → GoMap Bool × List Event
  | seen, [] => (seen, [])
  | seen, f :: fs =>
    if !seen.index false f then
      let r := scanFiles readFile (seen.assign f true) fs
      (r.1, detected f :: Event.println [readFile f] :: r.2)
    else scanFiles readFile seen fs

/-- The watcher run for the given polls, from the given seen set: the output of each poll. -/
def runPolls : GoMap Bool → List Poll → List (List Event)
  | _, [] => []
  | seen, p :: ps => (scanFiles p.readFile seen p.files).2 :: runPolls (scanFiles p.readFile seen p.files).1 ps

/-- Go `main` of `watch_build_errors.go` over a finite run: `seen` starts empty. -/
def watchBuildErrors (polls : List Poll) : List (List Event) := runPolls ∅ polls

/-! ## Sample inputs -/

/-- A walk over a small tree: the root directory, one file of each recognized extension,
a text file, a `.json` file, a source file the walk could not stat (followed by further
source files), and a directory whose name ends in `.js`. -/
def sampleWalk : List WalkEntry :=
  [⟨"src", false, true, 3⟩, ⟨"src\\a.js", false, false, 10⟩, ⟨"src\\b.jsx", false, false, 11⟩,
    ⟨"src\\notes.txt", false, false, 12⟩, ⟨"src\\data.json", false, false, 13⟩,
    ⟨"src\\broken.tsx", true, false, 0⟩, ⟨"src\\c.ts", false, false, 14⟩,
    ⟨"src\\d.tsx", false, false, 15⟩, ⟨"src\\lib.js", false, true, 16⟩]

/-- Thirty distinct lines. -/
def thirtyLines : List String :=
  ["l01", "l02", "l03", "l04", "l05", "l06", "l07", "l08", "l09", "l10",
    "l11", "l12", "l13", "l14", "l15", "l16", "l17", "l18", "l19", "l20",
    "l21", "l22", "l23", "l24", "l25", "l26", "l27", "l28", "l29", "l30"]

/-- Commands in which the build exits 0 after writing `out`, and every git step exits 0. -/
def buildSucceeds (out : String) : Commands :=
  fun argv => if argv = buildCommand then RunResult.exited 0 out else RunResult.exited 0 ""

/-- Commands in which `npm` cannot be started. -/
def buildCannotStart : Commands :=
  fun argv => if argv = buildCommand then RunResult.launchFailed else RunResult.exited 0 ""

/-- Commands in which the build exits 1 after writing `out`, and every git step would fail. -/
def buildFails (out : String) : Commands :=
  fun argv => if argv = buildCommand then RunResult.exited 1 out else RunResult.exited 128 ""

/-- Three polls of the watcher: the second lists a new name twice, around an old one. -/
def samplePolls : List Poll :=
  [⟨["build-error-1.txt"], fun _ => "first"⟩,
    ⟨["build-error-2.txt", "build-error-1.txt", "build-error-2.txt"], fun _ => "second"⟩,
    ⟨["build-error-1.txt", "build-error-3.txt", "build-error-2.txt"], fun _ => "third"⟩]

/-! ## Lemmas on Go maps -/

theorem GoMap.index_of_lookup {V : Type} (zero : V) (m : GoMap V) (k : String) (v : V)
    (h : m.lookup k = some v) : m.index zero k = v := by
  simp [GoMap.index, h]

theorem GoMap.index_of_missing {V : Type} (zero : V) (m : GoMap V) (k : String)
    (h : m.lookup k = none) : m.index zero k = zero := by
  simp [GoMap.index, h]

theorem GoMap.lookup_of_mem_entries {V : Type} (m : GoMap V) (k : String) (v : V)
    (h : (⟨k, v⟩ : Σ _ : String, V) ∈ m.entries) : m.lookup k = some v :=
  AList.mem_lookup_iff.mpr h

theorem GoMap.mem_entries_of_lookup {V : Type} (m : GoMap V) (k : String) (v : V)
    (h : m.lookup k = some v) : (⟨k, v⟩ : Σ _ : String, V) ∈ m.entries :=
  AList.mem_lookup_iff.mp h

/-- Maps that are equal as mappings hold the same entries, up to order. -/
theorem GoMap.SameMapping.perm {V : Type} {a b : GoMap V} (h : a.SameMapping b) :
    a.entries.Perm b.entries := by
  refine List.lookup_ext a.nodupKeys b.nodupKeys ?_
  intro k v
  have hk := h k
  simp only [AList.lookup] at hk
  rw [hk]

theorem GoMap.SameMapping.len_eq {V : Type} {a b : GoMap V} (h : a.SameMapping b) :
    a.len = b.len := h.perm.length_eq

theorem GoMap.SameMapping.symm {V : Type} {a b : GoMap V} (h : a.SameMapping b) :
    b.SameMapping a := fun k => (h k).symm

/-- Identical key sets and identical values on the shared keys give equal mappings. -/
theorem GoMap.sameMapping_of_keys_values {V : Type} (a b : GoMap V)
    (hkeys : ∀ k : String, k ∈ a ↔ k ∈ b)
    (hvals : ∀ (k : String) (v w : V), a.lookup k = some v → b.lookup k = some w → v = w) :
    a.SameMapping b := by
  intro k
  cases ha : a.lookup k with
  | none =>
    have : k ∉ b := fun hb => (AList.lookup_eq_none.mp ha) ((hkeys k).mpr hb)
    exact (AList.lookup_eq_none.mpr this).symm
  | some v =>
    cases hb : b.lookup k with
    | none =>
      have hka : k ∈ a := by
        by_contra hn
        rw [AList.lookup_eq_none.mpr hn] at ha
        exact Option.noConfusion ha
      exact absurd ((hkeys k).mp hka) (AList.lookup_eq_none.mp hb)
    | some w => rw [hvals k v w ha hb]

/-! ## Lemmas on mtimesChanged -/

/-- The range loop finds no mismatch exactly when `b[k] == v` for every visited entry. -/
theorem rangeMismatch_eq_false_iff (b : Snapshot) (l : List (Σ _ : String, Int)) :
    rangeMismatch b l = false ↔ ∀ e ∈ l, b.index 0 e.1 = e.2 := by
  induction l with
  | nil => simp [rangeMismatch]
  | cons e rest ih =>
    obtain ⟨k, v⟩ := e
    by_cases hkv : b.index 0 k = v
    · simp [rangeMismatch, hkv, ih]
    · simp [rangeMismatch, hkv]

/-- The result of the range loop does not depend on the order in which Go visits the map. -/
theorem rangeMismatch_perm (b : Snapshot) {l l' : List (Σ _ : String, Int)} (h : l.Perm l') :
    rangeMismatch b l = rangeMismatch b l' := by
  have key : rangeMismatch b l = false ↔ rangeMismatch b l' = false := by
    rw [rangeMismatch_eq_false_iff, rangeMismatch_eq_false_iff]
    exact ⟨fun H e he => H e (h.mem_iff.mpr he), fun H e he => H e (h.mem_iff.mp he)⟩
  cases h1 : rangeMismatch b l <;> cases h2 : rangeMismatch b l' <;> simp_all

/-- What `mtimesChanged` computes: `false` exactly when the two maps have the same
number of keys and `b[k] == v` for every entry `(k, v)` of `a`. -/
theorem mtimesChanged_eq_false_iff (a b : Snapshot) :
    mtimesChanged a b = false ↔
      a.len = b.len ∧ ∀ (k : String) (v : Int), a.lookup k = some v → b.index 0 k = v := by
  unfold mtimesChanged
  by_cases hlen : a.len = b.len
  · simp only [hlen, ne_eq, not_true_eq_false, if_false, true_and, rangeMismatch_eq_false_iff]
    constructor
    · intro H k v hk
      exact H ⟨k, v⟩ (a.mem_entries_of_lookup k v hk)
    · rintro H ⟨k, v⟩ he
      exact H k v (a.lookup_of_mem_entries k v he)
  · simp [hlen]

theorem mtimesChanged_of_sameMapping (a b : Snapshot) (h : a.SameMapping b) :
    mtimesChanged a b = false := by
  rw [mtimesChanged_eq_false_iff]
  refine ⟨h.len_eq, fun k v hk => ?_⟩
  exact b.index_of_lookup 0 k v ((h k).symm.trans hk)

theorem mtimesChanged_self (a : Snapshot) : mtimesChanged a a = false :=
  mtimesChanged_of_sameMapping a a (fun _ => rfl)

theorem mtimesChanged_of_shared_key (a b : Snapshot) (k : String) (v w : Int)
    (ha : a.lookup k = some v) (hb : b.lookup k = some w) (hne : v ≠ w) :
    mtimesChanged a b = true := by
  cases h : mtimesChanged a b with
  | true => rfl
  | false =>
    have := ((mtimesChanged_eq_false_iff a b).mp h).2 k v ha
    rw [b.index_of_lookup 0 k w hb] at this
    exact absurd this.symm hne

theorem sameMapping_of_mtimesChanged_false (a b : Snapshot)
    (hnz : ∀ (k : String) (v : Int), a.lookup k = some v → v ≠ 0)
    (h : mtimesChanged a b = false) : a.SameMapping b := by
  obtain ⟨hlen, hval⟩ := (mtimesChanged_eq_false_iff a b).mp h
  have hsub : a.entries ⊆ b.entries := by
    rintro ⟨k, v⟩ he
    have hk := a.lookup_of_mem_entries k v he
    have hidx := hval k v hk
    cases hb : b.lookup k with
    | none =>
      rw [b.index_of_missing 0 k hb] at hidx
      exact absurd hidx.symm (hnz k v hk)
    | some w =>
      rw [b.index_of_lookup 0 k w hb] at hidx
      subst hidx
      exact b.mem_entries_of_lookup k _ hb
  have hperm : a.entries.Perm b.entries :=
    (List.subperm_of_subset a.nodupKeys.nodup hsub).perm_of_length_le (le_of_eq hlen.symm)
  intro k
  exact AList.perm_lookup hperm

/-! ## Change Detector: claims on mtimesChanged -/

/-- C1, evaluated on the code: the claim that `mtimesChanged a b` is `true` exactly when
`a` and `b` differ as mappings fails for the snapshots `{"a.js": 0}` and `{"b.js": 1}`.
They have one key each, `b["a.js"]` is the zero value `0`, which equals the timestamp
stored in `a`, so `mtimesChanged` returns `false` although the key sets differ. -/
theorem mtimesChanged_misses_zero_timestamp :
    mtimesChanged (snapshotOf [("a.js", 0)]) (snapshotOf [("b.js", 1)]) = false ∧
      ¬ (snapshotOf [("a.js", 0)]).SameMapping (snapshotOf [("b.js", 1)]) := by
  refine ⟨by decide, fun h => ?_⟩
  have h1 := h "a.js"
  revert h1
  decide

/-- C2: for snapshots with identical key sets and identical values on those keys,
`mtimesChanged` returns `false`, in either argument order; in particular a snapshot
compared with itself gives `false`. -/
theorem mtimesChanged_identical (a b : Snapshot)
    (hkeys : ∀ k : String, k ∈ a ↔ k ∈ b)
    (hvals : ∀ (k : String) (v w : Int), a.lookup k = some v → b.lookup k = some w → v = w) :
    mtimesChanged a b = false ∧ mtimesChanged b a = false ∧ mtimesChanged a a = false := by
  have h := GoMap.sameMapping_of_keys_values a b hkeys hvals
  exact ⟨mtimesChanged_of_sameMapping a b h, mtimesChanged_of_sameMapping b a h.symm,
    mtimesChanged_self a⟩

/-- Witness for C2: the same two files recorded in opposite orders. -/
theorem mtimesChanged_identical_witness :
    mtimesChanged (snapshotOf [("a.js", 2), ("b.ts", 1)]) (snapshotOf [("b.ts", 1), ("a.js", 2)])
        = false ∧
      mtimesChanged (snapshotOf [("b.ts", 1), ("a.js", 2)]) (snapshotOf [("a.js", 2), ("b.ts", 1)])
        = false ∧
      mtimesChanged (snapshotOf [("a.js", 2), ("b.ts", 1)]) (snapshotOf [("a.js", 2), ("b.ts", 1)])
        = false :=
  mtimesChanged_identical (snapshotOf [("a.js", 2), ("b.ts", 1)])
    (snapshotOf [("b.ts", 1), ("a.js", 2)])
    (by
      intro k
      simp only [AList.mem_keys]
      have e1 : (snapshotOf [("a.js", 2), ("b.ts", 1)]).keys = ["b.ts", "a.js"] := by decide
      have e2 : (snapshotOf [("b.ts", 1), ("a.js", 2)]).keys = ["a.js", "b.ts"] := by decide
      rw [e1, e2]
      simp [or_comm])
    (by
      intro k v w hv hw
      have e1 : (snapshotOf [("a.js", 2), ("b.ts", 1)]).entries = [⟨"b.ts", 1⟩, ⟨"a.js", 2⟩] := by
        decide
      have e2 : (snapshotOf [("b.ts", 1), ("a.js", 2)]).entries = [⟨"a.js", 2⟩, ⟨"b.ts", 1⟩] := by
        decide
      have hv1 := GoMap.mem_entries_of_lookup _ k v hv
      have hw1 := GoMap.mem_entries_of_lookup _ k w hw
      rw [e1] at hv1
      rw [e2] at hw1
      simp only [List.mem_cons, Sigma.mk.inj_iff, heq_eq_eq, List.mem_singleton,
        List.not_mem_nil, or_false] at hv1 hw1
      rcases hv1 with ⟨hk, rfl⟩ | ⟨hk, rfl⟩ <;> rcases hw1 with ⟨hk2, rfl⟩ | ⟨hk2, rfl⟩
      · rw [hk] at hk2; exact absurd hk2 (by decide)
      · rfl
      · rfl
      · rw [hk] at hk2; exact absurd hk2 (by decide))

/-- C3: when the numbers of keys differ, or some key present in both snapshots is mapped
to different timestamps, `mtimesChanged a b` and `mtimesChanged b a` both return `true`. -/
theorem mtimesChanged_of_difference (a b : Snapshot)
    (h : a.len ≠ b.len ∨
      ∃ (k : String) (v w : Int), a.lookup k = some v ∧ b.lookup k = some w ∧ v ≠ w) :
    mtimesChanged a b = true ∧ mtimesChanged b a = true := by
  rcases h with hlen | ⟨k, v, w, ha, hb, hne⟩
  · constructor
    · simp [mtimesChanged, hlen]
    · simp [mtimesChanged, Ne.symm hlen]
  · exact ⟨mtimesChanged_of_shared_key a b k v w ha hb hne,
      mtimesChanged_of_shared_key b a k w v hb ha (Ne.symm hne)⟩

/-- Witness for C3: one shared file whose timestamp moved from 1 to 2. -/
theorem mtimesChanged_of_difference_witness :
    mtimesChanged (snapshotOf [("a.js", 2), ("b.ts", 7)]) (snapshotOf [("a.js", 1), ("b.ts", 7)])
        = true ∧
      mtimesChanged (snapshotOf [("a.js", 1), ("b.ts", 7)]) (snapshotOf [("a.js", 2), ("b.ts", 7)])
        = true :=
  mtimesChanged_of_difference (snapshotOf [("a.js", 2), ("b.ts", 7)])
    (snapshotOf [("a.js", 1), ("b.ts", 7)])
    (Or.inr ⟨"a.js", 2, 1, by decide, by decide, by decide⟩)

/-- C10: when every timestamp stored in the first argument is non-zero, `mtimesChanged a b`
returns `false` exactly when `a` and `b` are equal as mappings; and indexing `b` at a key
it does not hold yields `0`. -/
theorem mtimesChanged_false_iff_of_nonzero (a b : Snapshot)
    (hnz : ∀ (k : String) (v : Int), a.lookup k = some v → v ≠ 0) :
    (mtimesChanged a b = false ↔ a.SameMapping b) ∧
      ∀ k : String, b.lookup k = none → b.index 0 k = 0 :=
  ⟨⟨sameMapping_of_mtimesChanged_false a b hnz, mtimesChanged_of_sameMapping a b⟩,
    fun k hk => b.index_of_missing 0 k hk⟩

/-- Witness for C10: a file with a non-zero timestamp replaced by another file. -/
theorem mtimesChanged_false_iff_of_nonzero_witness :
    (mtimesChanged (snapshotOf [("a.js", 5)]) (snapshotOf [("b.js", 1)]) = false ↔
        (snapshotOf [("a.js", 5)]).SameMapping (snapshotOf [("b.js", 1)])) ∧
      ∀ k : String, (snapshotOf [("b.js", 1)]).lookup k = none →
        (snapshotOf [("b.js", 1)]).index 0 k = 0 :=
  mtimesChanged_false_iff_of_nonzero (snapshotOf [("a.js", 5)]) (snapshotOf [("b.js", 1)])
    (by
      intro k v hv
      have e1 : (snapshotOf [("a.js", 5)]).entries = [⟨"a.js", 5⟩] := by decide
      have hv1 := GoMap.mem_entries_of_lookup _ k v hv
      rw [e1] at hv1
      simp only [List.mem_singleton, Sigma.mk.inj_iff, heq_eq_eq] at hv1
      rw [hv1.2]
      decide)

/-! ## Snapshot Collector: getMtimes -/

theorem lookup_walkFn (m : Snapshot) (e : WalkEntry) (p : String) :
    (walkFn m e).lookup p =
      if e.collected = true ∧ e.path = p then some e.modTimeUnixNano else m.lookup p := by
  unfold walkFn
  by_cases hc : e.collected = true
  · have hc1 : (e.err = false && !e.isDir && recognized e.path) = true := hc
    rw [if_pos hc1]
    by_cases hp : e.path = p
    · subst hp
      simp [hc, GoMap.assign, AList.lookup_insert]
    · have hp1 : p ≠ e.path := fun h => hp h.symm
      simp [hc, hp, GoMap.assign, AList.lookup_insert_ne hp1]
  · have hc1 : ¬ (e.err = false && !e.isDir && recognized e.path) = true := hc
    rw [if_neg hc1]
    simp [hc]

theorem getMtimes_snoc (es : List WalkEntry) (e : WalkEntry) :
    getMtimes (es ++ [e]) = walkFn (getMtimes es) e := by
  simp [getMtimes, List.foldl_append]

theorem lookup_getMtimes (visited : List WalkEntry)
    (hd : (visited.map WalkEntry.path).Nodup) (p : String) (t : Int) :
    (getMtimes visited).lookup p = some t ↔
      ∃ e ∈ visited, e.path = p ∧ e.collected = true ∧ e.modTimeUnixNano = t := by
  induction visited using List.reverseRecOn with
  | nil => simp [getMtimes]
  | append_singleton es e ih =>
    rw [List.map_append, List.nodup_append] at hd
    obtain ⟨hdes, -, hdisj⟩ := hd
    rw [getMtimes_snoc, lookup_walkFn]
    by_cases hc : e.collected = true ∧ e.path = p
    · rw [if_pos hc]
      constructor
      · intro h
        exact ⟨e, by simp, hc.2, hc.1, Option.some.inj h⟩
      · rintro ⟨e', he', hp', -, ht'⟩
        rcases List.mem_append.mp he' with hin | hin
        · exfalso
          refine hdisj (List.mem_map_of_mem WalkEntry.path hin) ?_
          rw [hp', ← hc.2]
          simp
        · rw [List.mem_singleton.mp hin] at ht'
          rw [ht']
    · rw [if_neg hc, ih hdes]
      constructor
      · rintro ⟨e', he', rest⟩
        exact ⟨e', List.mem_append_left _ he', rest⟩
      · rintro ⟨e', he', hp', hc', ht'⟩
        rcases List.mem_append.mp he' with hin | hin
        · exact ⟨e', hin, hp', hc', ht'⟩
        · rw [List.mem_singleton.mp hin] at hp' hc'
          exact absurd ⟨hc', hp'⟩ hc

theorem getMtimes_skip (pre post : List WalkEntry) (e : WalkEntry) (he : e.collected = false) :
    getMtimes (pre ++ e :: post) = getMtimes (pre ++ post) := by
  have hstep : ∀ m : Snapshot, walkFn m e = m := by
    intro m
    unfold walkFn
    have hc1 : ¬ (e.err = false && !e.isDir && recognized e.path) = true := by
      have : (e.err = false && !e.isDir && recognized e.path) = false := he
      rw [this]
      decide
    rw [if_neg hc1]
  simp [getMtimes, List.foldl_append, hstep]

/-- The snapshot of `getMtimes` in terms of the extension test `recognized` of the code. -/
theorem getMtimes_recognized (visited : List WalkEntry)
    (hd : (visited.map WalkEntry.path).Nodup) :
    (∀ p : String, p ∈ getMtimes visited ↔
        ∃ e ∈ visited, e.path = p ∧ e.err = false ∧ e.isDir = false ∧ recognized p = true) ∧
      (∀ e ∈ visited, e.err = false → e.isDir = false → recognized e.path = true →
        (getMtimes visited).lookup e.path = some e.modTimeUnixNano) ∧
      (∀ p : String, recognized p = false → p ∉ getMtimes visited) ∧
      (∀ (pre post : List WalkEntry) (e : WalkEntry), visited = pre ++ e :: post →
        e.err = true → e.path ∉ getMtimes visited ∧ getMtimes visited = getMtimes (pre ++ post)) := by
  have hcol : ∀ e : WalkEntry, e.collected = true ↔
      e.err = false ∧ e.isDir = false ∧ recognized e.path = true := by
    intro e
    simp [WalkEntry.collected, and_assoc]
  have hkey : ∀ p : String, p ∈ getMtimes visited ↔
      ∃ e ∈ visited, e.path = p ∧ e.err = false ∧ e.isDir = false ∧ recognized p = true := by
    intro p
    constructor
    · intro hp
      cases hl : (getMtimes visited).lookup p with
      | none => exact absurd hp (AList.lookup_eq_none.mp hl)
      | some t =>
        obtain ⟨e, he, hpe, hc, -⟩ := (lookup_getMtimes visited hd p t).mp hl
        obtain ⟨h1, h2, h3⟩ := (hcol e).mp hc
        exact ⟨e, he, hpe, h1, h2, hpe ▸ h3⟩
    · rintro ⟨e, he, hpe, h1, h2, h3⟩
      have hl : (getMtimes visited).lookup p = some e.modTimeUnixNano :=
        (lookup_getMtimes visited hd p _).mpr ⟨e, he, hpe, (hcol e).mpr ⟨h1, h2, hpe ▸ h3⟩, rfl⟩
      by_contra hn
      rw [AList.lookup_eq_none.mpr hn] at hl
      exact Option.noConfusion hl
  refine ⟨hkey, ?_, ?_, ?_⟩
  · intro e he h1 h2 h3
    exact (lookup_getMtimes visited hd e.path _).mpr ⟨e, he, rfl, (hcol e).mpr ⟨h1, h2, h3⟩, rfl⟩
  · intro p hp hin
    obtain ⟨e, -, -, -, -, h3⟩ := (hkey p).mp hin
    rw [hp] at h3
    exact Bool.noConfusion h3
  · intro pre post e hv herr
    have hnc : e.collected = false := by simp [WalkEntry.collected, herr]
    constructor
    · intro hin
      obtain ⟨e', he', hpe, h1, -, -⟩ := (hkey e.path).mp hin
      have hee : e' = e := by
        have hinj := List.inj_on_of_nodup_map hd
        exact hinj he' (by rw [hv]; simp) hpe
      rw [hee, herr] at h1
      exact Bool.noConfusion h1
    · rw [hv]
      exact getMtimes_skip pre post e hnc

/-- Go `strings.HasSuffix(s, suffix)` holds exactly when `s` is some string followed by
`suffix`. -/
theorem HasSuffix_iff (s suffix : String) :
    HasSuffix s suffix = true ↔ ∃ stem : String, s = stem ++ suffix := by
  unfold HasSuffix
  rw [List.isSuffixOf_iff_suffix]
  constructor
  · rintro ⟨t, ht⟩
    refine ⟨String.mk t, String.ext ?_⟩
    rw [String.data_append]
    exact ht.symm
  · rintro ⟨stem, hs⟩
    refine ⟨stem.data, ?_⟩
    rw [hs, String.data_append]

/-- The extension test of the code accepts exactly the paths ending in `.js`, `.jsx`, `.ts`
or `.tsx`. -/
theorem recognized_iff (p : String) :
    recognized p = true ↔
      ((∃ stem : String, p = stem ++ ".js") ∨ (∃ stem : String, p = stem ++ ".jsx") ∨
        (∃ stem : String, p = stem ++ ".ts") ∨ (∃ stem : String, p = stem ++ ".tsx")) := by
  unfold recognized
  simp only [Bool.or_eq_true, HasSuffix_iff, or_assoc]

/-- C7: for a walk visiting entries with pairwise distinct paths, the snapshot `getMtimes`
returns has a key `p` exactly when some visited entry has path `p`, no error, is not a
directory and `p` ends in `.js`, `.jsx`, `.ts` or `.tsx`; that key is mapped to the entry's
modification time in nanoseconds; a path that ends in none of the four extensions is never
a key; and an entry with a traversal error is not a key and changes nothing: the result is
the one of the walk without it. -/
theorem getMtimes_spec (visited : List WalkEntry)
    (hd : (visited.map WalkEntry.path).Nodup) :
    (∀ p : String, p ∈ getMtimes visited ↔
        ∃ e ∈ visited, e.path = p ∧ e.err = false ∧ e.isDir = false ∧
          ((∃ stem : String, p = stem ++ ".js") ∨ (∃ stem : String, p = stem ++ ".jsx") ∨
            (∃ stem : String, p = stem ++ ".ts") ∨ (∃ stem : String, p = stem ++ ".tsx"))) ∧
      (∀ e ∈ visited, e.err = false → e.isDir = false →
        ((∃ stem : String, e.path = stem ++ ".js") ∨ (∃ stem : String, e.path = stem ++ ".jsx") ∨
          (∃ stem : String, e.path = stem ++ ".ts") ∨
          (∃ stem : String, e.path = stem ++ ".tsx")) →
        (getMtimes visited).lookup e.path = some e.modTimeUnixNano) ∧
      (∀ p : String,
        ¬ ((∃ stem : String, p = stem ++ ".js") ∨ (∃ stem : String, p = stem ++ ".jsx") ∨
          (∃ stem : String, p = stem ++ ".ts") ∨ (∃ stem : String, p = stem ++ ".tsx")) →
        p ∉ getMtimes visited) ∧
      (∀ (pre post : List WalkEntry) (e : WalkEntry), visited = pre ++ e :: post →
        e.err = true → e.path ∉ getMtimes visited ∧ getMtimes visited = getMtimes (pre ++ post)) := by
  obtain ⟨h1, h2, h3, h4⟩ := getMtimes_recognized visited hd
  refine ⟨?_, ?_, ?_, h4⟩
  · intro p
    rw [h1 p]
    constructor
    · rintro ⟨e, he, hp, herr, hdir, hrec⟩
      exact ⟨e, he, hp, herr, hdir, (recognized_iff p).mp hrec⟩
    · rintro ⟨e, he, hp, herr, hdir, hext⟩
      exact ⟨e, he, hp, herr, hdir, (recognized_iff p).mpr hext⟩
  · intro e he herr hdir hext
    exact h2 e he herr hdir ((recognized_iff e.path).mpr hext)
  · intro p hext
    apply h3 p
    cases hr : recognized p with
    | false => rfl
    | true => exact absurd ((recognized_iff p).mp hr) hext

/-- Witness for C7: `sampleWalk` has pairwise distinct paths; its snapshot holds the four
files `a.js`, `b.jsx`, `c.ts` and `d.tsx` with their modification times, and neither the
text file, the `.json` file, the entry with the error nor the directories. -/
theorem getMtimes_spec_witness :
    ((∀ p : String, p ∈ getMtimes sampleWalk ↔
        ∃ e ∈ sampleWalk, e.path = p ∧ e.err = false ∧ e.isDir = false ∧
          ((∃ stem : String, p = stem ++ ".js") ∨ (∃ stem : String, p = stem ++ ".jsx") ∨
            (∃ stem : String, p = stem ++ ".ts") ∨ (∃ stem : String, p = stem ++ ".tsx"))) ∧
      (∀ e ∈ sampleWalk, e.err = false → e.isDir = false →
        ((∃ stem : String, e.path = stem ++ ".js") ∨ (∃ stem : String, e.path = stem ++ ".jsx") ∨
          (∃ stem : String, e.path = stem ++ ".ts") ∨
          (∃ stem : String, e.path = stem ++ ".tsx")) →
        (getMtimes sampleWalk).lookup e.path = some e.modTimeUnixNano) ∧
      (∀ p : String,
        ¬ ((∃ stem : String, p = stem ++ ".js") ∨ (∃ stem : String, p = stem ++ ".jsx") ∨
          (∃ stem : String, p = stem ++ ".ts") ∨ (∃ stem : String, p = stem ++ ".tsx")) →
        p ∉ getMtimes sampleWalk) ∧
      (∀ (pre post : List WalkEntry) (e : WalkEntry), sampleWalk = pre ++ e :: post →
        e.err = true →
          e.path ∉ getMtimes sampleWalk ∧ getMtimes sampleWalk = getMtimes (pre ++ post))) ∧
      (getMtimes sampleWalk).entries =
        [⟨"src\\d.tsx", 15⟩, ⟨"src\\c.ts", 14⟩, ⟨"src\\b.jsx", 11⟩, ⟨"src\\a.js", 10⟩] :=
  ⟨getMtimes_spec sampleWalk (by decide), by decide⟩

/-! ## Error Reporter: showBuildError -/

theorem splitNewline_line (l rest : List Char) (hl : '\n' ∉ l) :
    splitNewline (l ++ '\n' :: rest) = l :: splitNewline rest := by
  induction l with
  | nil => simp [splitNewline]
  | cons c l ih =>
    have hc : c ≠ '\n' := fun h => hl (by simp [h])
    have hl1 : '\n' ∉ l := fun h => hl (List.mem_cons_of_mem _ h)
    simp [splitNewline, hc, ih hl1]

theorem splitNewline_lines (lines : List String) (hl : ∀ l ∈ lines, '\n' ∉ l.data) :
    splitNewline (lines.flatMap (fun l => l.data ++ ['\n'])) = lines.map String.data ++ [[]] := by
  induction lines with
  | nil => simp [splitNewline]
  | cons l ls ih =>
    have h1 : '\n' ∉ l.data := hl l (by simp)
    have h2 : ∀ l1 ∈ ls, '\n' ∉ l1.data := fun l1 h => hl l1 (List.mem_cons_of_mem _ h)
    simp only [List.flatMap_cons, List.append_assoc, List.singleton_append, List.map_cons,
      List.cons_append]
    rw [splitNewline_line l.data _ h1, List.nil_append, ih h2]

/-- On a file of newline-terminated lines `Split` yields the lines and one more, empty, string. -/
theorem Split_fileOfLines (lines : List String) (hl : ∀ l ∈ lines, '\n' ∉ l.data) :
    Split (fileOfLines lines) = lines ++ [""] := by
  unfold Split fileOfLines
  rw [splitNewline_lines lines hl]
  simp [List.map_append, List.map_map, Function.comp_def]

/-- What `showBuildError` prints for a readable file of `N` newline-terminated lines: the
header, the last `min (N + 1) 30` of the `N + 1` strings `Split` yields (the lines and a
final empty string), and the trailer. -/
theorem showBuildError_fileOfLines (lines : List String) (hl : ∀ l ∈ lines, '\n' ∉ l.data) :
    showBuildError (some (fileOfLines lines)) =
      Event.println ["\n=== Build failed! ==="] ::
        (((lines ++ [""]).drop (lines.length + 1 - 30)).map (fun line => Event.println [line]) ++
          [Event.println ["\nCopy the error log above and paste it to Copilot for fixes."]]) := by
  unfold showBuildError
  simp only [Split_fileOfLines lines hl, List.length_append, List.length_singleton]
  by_cases h : lines.length + 1 > 30
  · simp [h]
  · have h0 : lines.length + 1 - 30 = 0 := by omega
    simp [h, h0]

/-- C4, evaluated on the code: for the capture file made of the thirty newline-terminated
lines `l01` to `l30`, `showBuildError` prints, between header and trailer, the 29 lines
`l02` to `l30` followed by one empty line, and not the 30 lines of the file; for the empty
file it prints one empty line instead of none. -/
theorem showBuildError_drops_a_line :
    showBuildError (some (fileOfLines thirtyLines)) =
        Event.println ["\n=== Build failed! ==="] ::
          ((thirtyLines.drop 1 ++ [""]).map (fun line => Event.println [line]) ++
            [Event.println ["\nCopy the error log above and paste it to Copilot for fixes."]]) ∧
      showBuildError (some (fileOfLines thirtyLines)) ≠
        Event.println ["\n=== Build failed! ==="] ::
          (thirtyLines.map (fun line => Event.println [line]) ++
            [Event.println ["\nCopy the error log above and paste it to Copilot for fixes."]]) ∧
      showBuildError (some (fileOfLines [])) =
        [Event.println ["\n=== Build failed! ==="], Event.println [""],
          Event.println ["\nCopy the error log above and paste it to Copilot for fixes."]] := by
  refine ⟨by decide, by decide, by decide⟩

/-! ## One-shot runner: autoapprove -/

/-- The trace of the one-shot runner, by the result of the build command alone. -/
theorem autoapprove_trace (sys : Commands) :
    (autoapprove sys).1 =
      if (sys buildCommand).errIsNil = true then
        [Event.run buildCommand, Event.run gitAdd, Event.run gitCommit, Event.run gitPush,
          Event.println ["Build succeeded and changes committed."]]
      else
        [Event.run buildCommand, Event.println ["Build failed. See build-error.txt for details."]] := by
  unfold autoapprove
  by_cases h : (sys buildCommand).errIsNil = true <;> simp [h]

/-- The one-shot runner leaves in `build-error.txt` what the build wrote. -/
theorem autoapprove_file (sys : Commands) : (autoapprove sys).2 = (sys buildCommand).output := by
  unfold autoapprove
  by_cases h : (sys buildCommand).errIsNil = true <;> simp [h]

/-- C8: in the one-shot runner, whatever the outcomes of the git commands, a build that
exits 0 is followed by `git add .`, `git commit -m` with the fixed message and `git push`,
in that order and once each; a build that exits non-zero or cannot be started is followed
by no command at all. -/
theorem autoapprove_commands (sys : Commands) :
    ((∃ out : String, sys buildCommand = RunResult.exited 0 out) →
        commandsRun (autoapprove sys).1 =
          [["npm", "run", "build"], ["git", "add", "."],
            ["git", "commit", "-m", "Auto-approve: build succeeded and changes applied"],
            ["git", "push"]]) ∧
      ((sys buildCommand = RunResult.launchFailed ∨
          ∃ (code : Nat) (out : String), code ≠ 0 ∧ sys buildCommand = RunResult.exited code out) →
        commandsRun (autoapprove sys).1 = [["npm", "run", "build"]]) := by
  constructor
  · rintro ⟨out, h⟩
    rw [autoapprove_trace, h]
    rfl
  · rintro (h | ⟨code, out, hc, h⟩)
    · rw [autoapprove_trace, h]
      rfl
    · rw [autoapprove_trace, h]
      cases code with
      | zero => exact absurd rfl hc
      | succ n => rfl

/-- Witness for C8: a successful build, and a failing one with git steps that would fail. -/
theorem autoapprove_commands_witness :
    commandsRun (autoapprove (buildSucceeds "compiled\n")).1 =
        [["npm", "run", "build"], ["git", "add", "."],
          ["git", "commit", "-m", "Auto-approve: build succeeded and changes applied"],
          ["git", "push"]] ∧
      commandsRun (autoapprove (buildFails "error TS1005\n")).1 = [["npm", "run", "build"]] :=
  ⟨(autoapprove_commands (buildSucceeds "compiled\n")).1 ⟨"compiled\n", by decide⟩,
    (autoapprove_commands (buildFails "error TS1005\n")).2
      (Or.inr ⟨1, "error TS1005\n", by decide, by decide⟩)⟩

/-! ## Watch loop -/

theorem showBuildError_prints_only (r : Option String) (argv : List String) :
    Event.run argv ∉ showBuildError r := by
  unfold showBuildError
  cases r with
  | none => simp
  | some data =>
    intro hmem
    simp only [List.mem_cons, List.mem_append, List.mem_singleton, List.not_mem_nil,
      or_false, false_or] at hmem
    rcases hmem with hmem | hmem | hmem
    · exact Event.noConfusion hmem
    · obtain ⟨line, -, hline⟩ := List.mem_map.mp hmem
      exact Event.noConfusion hline
    · exact Event.noConfusion hmem

theorem buildsStarted_autoapprove (sys : Commands) : buildsStarted (autoapprove sys).1 = 0 := by
  rw [autoapprove_trace]
  by_cases h : (sys buildCommand).errIsNil = true
  · rw [if_pos h]
    decide
  · rw [if_neg h]
    decide

/-- A pass of the watch loop that detects a change starts the build script once. -/
theorem buildsStarted_loopBody_changed (st : WatchState) (t : Tick)
    (h : mtimesChanged t.mtimes st.lastMtimes = true) : buildsStarted (loopBody st t).1 = 1 := by
  have hne : Event.println ["Change detected. Running build..."] ≠
      Event.run ["go", "run", goScript] := by
    intro h
    exact Event.noConfusion h
  have hreport : ∀ (r : List Event), (∀ argv, Event.run argv ∉ r) →
      List.count (Event.run ["go", "run", goScript]) r = 0 :=
    fun r hr => List.count_eq_zero.mpr (hr _)
  have hsucc : ∀ argv, Event.run argv ∉ [Event.println ["Build succeeded."]] := by
    intro argv
    simp
  unfold loopBody buildsStarted
  rw [if_pos h]
  simp only [List.count_cons, List.count_append]
  cases hs : t.script with
  | none =>
    cases hf : st.errFileData with
    | none => simp
    | some data =>
      by_cases hlen : data.length > 0
      · simp [hlen, hreport _ (showBuildError_prints_only _)]
      · simp [hlen]
  | some sys =>
    have hc := buildsStarted_autoapprove sys
    unfold buildsStarted at hc
    by_cases hlen : (autoapprove sys).2.length > 0
    · simp [hlen, hc, hreport _ (showBuildError_prints_only _)]
    · simp [hlen, hc]

/-- C9: one pass of the watch loop starts the build once when
`mtimesChanged(current, baseline)` is `true` and not at all otherwise; after a pass that
built, the baseline is the current snapshot, and a following pass observing that same
snapshot starts no build; after a pass that did not build, the baseline is unchanged. -/
theorem loopBody_builds_once (st : WatchState) (t : Tick) :
    buildsStarted (loopBody st t).1 = (if mtimesChanged t.mtimes st.lastMtimes then 1 else 0) ∧
      (mtimesChanged t.mtimes st.lastMtimes = true →
        (loopBody st t).2.lastMtimes = t.mtimes ∧
          ∀ t2 : Tick, t2.mtimes = t.mtimes →
            buildsStarted (loopBody (loopBody st t).2 t2).1 = 0 ∧
              (loopBody (loopBody st t).2 t2).2.lastMtimes = t.mtimes) ∧
      (mtimesChanged t.mtimes st.lastMtimes = false →
        (loopBody st t).1 = [] ∧ (loopBody st t).2.lastMtimes = st.lastMtimes) := by
  have hbase : mtimesChanged t.mtimes st.lastMtimes = true →
      (loopBody st t).2.lastMtimes = t.mtimes := by
    intro h
    unfold loopBody
    rw [if_pos h]
  have hidle : ∀ (s : WatchState) (u : Tick), mtimesChanged u.mtimes s.lastMtimes = false →
      loopBody s u = ([], s) := by
    intro s u h
    unfold loopBody
    simp [h]
  refine ⟨?_, ?_, ?_⟩
  · by_cases h : mtimesChanged t.mtimes st.lastMtimes = true
    · rw [buildsStarted_loopBody_changed st t h, if_pos h]
    · have h0 : mtimesChanged t.mtimes st.lastMtimes = false := by
        cases hm : mtimesChanged t.mtimes st.lastMtimes
        · rfl
        · exact absurd hm h
      rw [hidle st t h0, if_neg h]
      rfl
  · intro h
    refine ⟨hbase h, fun t2 h2 => ?_⟩
    have hsame : mtimesChanged t2.mtimes (loopBody st t).2.lastMtimes = false := by
      rw [hbase h, h2]
      exact mtimesChanged_self t.mtimes
    rw [hidle _ t2 hsame]
    exact ⟨rfl, hbase h⟩
  · intro h
    rw [hidle st t h]
    exact ⟨rfl, rfl⟩

theorem not_reported_autoapprove (sys : Commands) :
    Event.println ["\n=== Build failed! ==="] ∉ (autoapprove sys).1 := by
  rw [autoapprove_trace]
  by_cases h : (sys buildCommand).errIsNil = true
  · rw [if_pos h]
    decide
  · rw [if_neg h]
    decide

/-- What decides the report in the watch loop: when a change is detected and the build
script runs, `showBuildError` is invoked exactly when the capture file the script leaves is
non-empty, whatever the exit status of the build. -/
theorem reported_loopBody (st : WatchState) (t : Tick) (sys : Commands)
    (h : mtimesChanged t.mtimes st.lastMtimes = true) (hs : t.script = some sys) :
    reported (loopBody st t).1 = decide ((sys buildCommand).output.length > 0) := by
  have hchild := not_reported_autoapprove sys
  unfold loopBody reported
  rw [if_pos h, hs]
  simp only [autoapprove_file]
  by_cases hlen : (sys buildCommand).output.length > 0
  · simp [hlen, showBuildError]
  · simp [hlen, hchild]

/-- C5, evaluated on the code: in the watch loop, a build that exits 0 after writing
`compiled` and a newline to the capture file is followed by the three git commands and then
by the report of `showBuildError`; and a build that cannot be started leaves the capture
file empty, so that no report is made and `Build succeeded.` is printed. -/
theorem loopBody_reports_by_capture_size :
    (loopBody ⟨snapshotOf [("a.js", 1)], none⟩
        ⟨snapshotOf [("a.js", 2)], some (buildSucceeds "compiled\n"), true⟩).1 =
        [Event.println ["Change detected. Running build..."],
          Event.run ["go", "run", goScript],
          Event.run ["npm", "run", "build"],
          Event.run ["git", "add", "."],
          Event.run ["git", "commit", "-m", "Auto-approve: build succeeded and changes applied"],
          Event.run ["git", "push"],
          Event.println ["Build succeeded and changes committed."],
          Event.println ["\n=== Build failed! ==="],
          Event.println ["compiled"],
          Event.println [""],
          Event.println ["\nCopy the error log above and paste it to Copilot for fixes."]] ∧
      (loopBody ⟨snapshotOf [("a.js", 1)], none⟩
        ⟨snapshotOf [("a.js", 2)], some buildCannotStart, true⟩).1 =
        [Event.println ["Change detected. Running build..."],
          Event.run ["go", "run", goScript],
          Event.run ["npm", "run", "build"],
          Event.println ["Build failed. See build-error.txt for details."],
          Event.println ["Build succeeded."]] ∧
      reported (loopBody ⟨snapshotOf [("a.js", 1)], none⟩
        ⟨snapshotOf [("a.js", 2)], some (buildSucceeds "compiled\n"), true⟩).1 = true ∧
      reported (loopBody ⟨snapshotOf [("a.js", 1)], none⟩
        ⟨snapshotOf [("a.js", 2)], some buildCannotStart, true⟩).1 = false := by
  refine ⟨by decide, by decide, by decide, by decide⟩

/-! ## Error-file watcher -/

theorem index_assign_true (seen : GoMap Bool) (f g : String) :
    (seen.assign f true).index false g = if g = f then true else seen.index false g := by
  unfold GoMap.assign GoMap.index
  by_cases h : g = f
  · subst h
    simp [AList.lookup_insert]
  · simp [h, AList.lookup_insert_ne h]

theorem detected_ne_contents (g data : String) : Event.println [data] ≠ detected g := by
  intro h
  unfold detected at h
  injection h with h1
  simp at h1

theorem detected_inj (f g : String) : detected f = detected g ↔ f = g := by
  unfold detected
  constructor
  · intro h
    injection h with h1
    simpa using h1
  · intro h
    rw [h]

/-- One scan: a name is marked seen afterwards when it was seen before or is listed; it is
announced once when it was not seen before and is listed, and not at all otherwise. -/
theorem scanFiles_spec (readFile : String → String) (files : List String) (g : String) :
    ∀ seen : GoMap Bool,
      (scanFiles readFile seen files).1.index false g = (seen.index false g || decide (g ∈ files)) ∧
        (scanFiles readFile seen files).2.count (detected g) =
          if seen.index false g = false ∧ g ∈ files then 1 else 0 := by
  induction files with
  | nil =>
    intro seen
    simp [scanFiles]
  | cons f fs ih =>
    intro seen
    by_cases hf : seen.index false f = true
    · have hstep : scanFiles readFile seen (f :: fs) = scanFiles readFile seen fs := by
        simp [scanFiles, hf]
      rw [hstep]
      obtain ⟨h1, h2⟩ := ih seen
      by_cases hg : g = f
      · subst hg
        simp [h1, h2, hf]
      · simp [h1, h2, hg]
    · have hf0 : seen.index false f = false := by
        cases h : seen.index false f
        · rfl
        · exact absurd h hf
      have hstep : scanFiles readFile seen (f :: fs) =
          ((scanFiles readFile (seen.assign f true) fs).1,
            detected f :: Event.println [readFile f] ::
              (scanFiles readFile (seen.assign f true) fs).2) := by
        simp [scanFiles, hf0]
      rw [hstep]
      obtain ⟨h1, h2⟩ := ih (seen.assign f true)
      have hc : (Event.println [readFile f] == detected g) = false := by
        simpa using detected_ne_contents g (readFile f)
      by_cases hg : g = f
      · subst hg
        have hd : (detected g == detected g) = true := by simp
        simp [h1, h2, index_assign_true, hf0, List.count_cons, hc]
      · have hd : (detected f == detected g) = false := by
          simpa [detected_inj] using fun h : f = g => hg h.symm
        simp [h1, h2, index_assign_true, hg, List.count_cons, hc, hd]

theorem runPolls_length (polls : List Poll) :
    ∀ seen : GoMap Bool, (runPolls seen polls).length = polls.length := by
  induction polls with
  | nil => intro seen; rfl
  | cons p ps ih => intro seen; simp [runPolls, ih]

/-- A name that is already seen is announced by no later poll. -/
theorem runPolls_count_seen (polls : List Poll) (g : String) :
    ∀ seen : GoMap Bool, seen.index false g = true →
      ∀ j : Nat, ((runPolls seen polls).getD j []).count (detected g) = 0 := by
  induction polls with
  | nil => intro seen _ j; simp [runPolls]
  | cons p ps ih =>
    intro seen hs j
    obtain ⟨h1, h2⟩ := scanFiles_spec p.readFile p.files g seen
    cases j with
    | zero => simp [runPolls, h2, hs]
    | succ j =>
      simp only [runPolls, List.getD_cons_succ]
      exact ih _ (by rw [h1, hs]; rfl) j

/-- Over a whole run, a name not yet seen is announced once when some listing contains it,
and never otherwise. -/
theorem runPolls_count_total (polls : List Poll) (g : String) :
    ∀ seen : GoMap Bool,
      (runPolls seen polls).flatten.count (detected g) =
        if seen.index false g = false ∧ ∃ p ∈ polls, g ∈ p.files then 1 else 0 := by
  induction polls with
  | nil => intro seen; simp [runPolls]
  | cons p ps ih =>
    intro seen
    obtain ⟨h1, h2⟩ := scanFiles_spec p.readFile p.files g seen
    simp only [runPolls, List.flatten_cons, List.count_append, h2, ih, h1]
    by_cases hs : seen.index false g = false <;> by_cases hg : g ∈ p.files <;> simp [hs, hg]

/-- The poll that announces a name is the first one whose listing contains it. -/
theorem runPolls_count_at (polls : List Poll) (g : String) :
    ∀ (seen : GoMap Bool) (i : Nat), seen.index false g = false →
      (∃ p, polls[i]? = some p ∧ g ∈ p.files) →
      (∀ (k : Nat) (q : Poll), k < i → polls[k]? = some q → g ∉ q.files) →
      ∀ j : Nat, ((runPolls seen polls).getD j []).count (detected g) = if j = i then 1 else 0 := by
  induction polls with
  | nil =>
    intro seen i _ hex
    obtain ⟨p, hp, -⟩ := hex
    simp at hp
  | cons p ps ih =>
    intro seen i hs hex hfirst j
    obtain ⟨h1, h2⟩ := scanFiles_spec p.readFile p.files g seen
    cases i with
    | zero =>
      obtain ⟨p0, hp0, hg⟩ := hex
      simp only [List.getElem?_cons_zero, Option.some.injEq] at hp0
      subst hp0
      cases j with
      | zero => simp [runPolls, h2, hs, hg]
      | succ j =>
        simp only [runPolls, List.getD_cons_succ]
        rw [runPolls_count_seen ps g _ (by rw [h1, hs]; simp [hg]) j]
        simp
    | succ i =>
      have hg : g ∉ p.files := hfirst 0 p (Nat.succ_pos i) (by simp)
      cases j with
      | zero => simp [runPolls, h2, hg]
      | succ j =>
        simp only [runPolls, List.getD_cons_succ]
        rw [ih _ i (by rw [h1, hs]; simp [hg])
          (by simpa using hex)
          (fun k q hk hq => hfirst (k + 1) q (Nat.succ_lt_succ hk) (by simpa using hq)) j]
        simp

/-- C6: over any finite run of the error-file watcher, whatever each poll lists (any order,
names repeated within a listing or across listings), a file name whose first occurrence is
in the listing of poll `i` is announced exactly once in the whole output, by poll `i`, and
by no other poll. -/
theorem watchBuildErrors_prints_once (polls : List Poll) (f : String) (i : Nat)
    (hi : i < polls.length)
    (hf : f ∈ (polls.get ⟨i, hi⟩).files)
    (hfirst : ∀ (k : Nat) (hk : k < polls.length), k < i → f ∉ (polls.get ⟨k, hk⟩).files) :
    (watchBuildErrors polls).length = polls.length ∧
      (watchBuildErrors polls).flatten.count (detected f) = 1 ∧
      ∀ j : Nat, ((watchBuildErrors polls).getD j []).count (detected f) = if j = i then 1 else 0 := by
  have hempty : (∅ : GoMap Bool).index false f = false := by
    simp [GoMap.index]
  refine ⟨runPolls_length polls ∅, ?_, ?_⟩
  · unfold watchBuildErrors
    rw [runPolls_count_total polls f ∅, if_pos]
    exact ⟨hempty, polls.get ⟨i, hi⟩, List.get_mem polls i hi, hf⟩
  · unfold watchBuildErrors
    refine runPolls_count_at polls f ∅ i hempty ⟨polls.get ⟨i, hi⟩, ?_, hf⟩ ?_
    · simp [List.getElem?_eq_getElem hi]
    · intro k q hk hq
      have hkl : k < polls.length := lt_trans hk hi
      have hq1 : q = polls.get ⟨k, hkl⟩ := by
        rw [List.getElem?_eq_getElem hkl] at hq
        simpa using hq.symm
      rw [hq1]
      exact hfirst k hkl hk

/-- Witness for C6: `build-error-2.txt` first occurs in the second of three polls, twice,
and is listed again by the third. -/
theorem watchBuildErrors_prints_once_witness :
    (watchBuildErrors samplePolls).length = samplePolls.length ∧
      (watchBuildErrors samplePolls).flatten.count (detected "build-error-2.txt") = 1 ∧
      ∀ j : Nat, ((watchBuildErrors samplePolls).getD j []).count (detected "build-error-2.txt") =
        if j = 1 then 1 else 0 :=
  watchBuildErrors_prints_once samplePolls "build-error-2.txt" 1 (by decide) (by decide)
    (fun k hk hlt => by
      have hk0 : k = 0 := by omega
      subst hk0
      have h0 : "build-error-2.txt" ∉ (samplePolls.get ⟨0, by decide⟩).files := by decide
      exact h0)

end GameOfLife
